import Mathlib

/-!
Verification of the ST7735R display driver (`drivers/st7735r/st7735r144.py`)
against its natural-language specification.

The driver is embedded shallowly:
* `lcopy` embeds the viper kernel `_lcopy` (8-bit packed color to 16-bit
  wire format, two output bytes per source byte);
* `rgb` embeds the static method `ST7735R.rgb`;
* `toBytesBE` embeds Python's `int.to_bytes(v, len, 'big')` (faithful for
  `v < 256 ^ len`, the only range the driver uses);
* `showTxs` embeds the bus transactions issued by `ST7735R.show` (one
  `Tx` per `_wcd` call: command bytes plus data payload);
* `wcdE` / `wcmdE` / `initE` / `showEvents` embed the pin-level event
  traces of `_wcd`, `_wcmd`, `_init` and `show`;
* `showDev` embeds `show` as a state transformer over the device record,
  recording the writes it performs to the line buffer;
* `execW` models running an event trace over a transport whose k-th byte
  write fails, the exception propagating (execution stops at that write).
-/

set_option maxRecDepth 100000

/-- Embeds `_lcopy(dest, source, length)`: for each `x < length`, the source
byte `c = source[x]` yields `dest[2x] = ((c & 3) << 6) | ((c & 0x1c) >> 2)`
and `dest[2x+1] = (c & 0xe0) >> 3`.  Out-of-range reads (never performed by
the driver, whose callers guarantee `length ≤ |source|`) default to 0. -/
def lcopy (source : List Nat) (length : Nat) : List Nat :=
  (List.range length).flatMap fun x =>
    let c := source.getD x 0
    [((c &&& 3) <<< 6) ||| ((c &&& 0x1c) >>> 2), (c &&& 0xe0) >>> 3]

/-- Embeds `ST7735R.rgb(r, g, b) = (r & 0xe0) | ((g >> 3) & 0x1c) | (b >> 6)`. -/
def rgb (r g b : Nat) : Nat :=
  (r &&& 0xe0) ||| ((g >>> 3) &&& 0x1c) ||| (b >>> 6)

/-- The inverse wire mapping: recovers the (red, green, blue) sub-fields from
the two wire bytes emitted by `lcopy` for one pixel.  Red sits in bits 4..2
of the second byte, green in bits 2..0 of the first, blue in bits 7..6 of
the first. -/
def wireDecode (b0 b1 : Nat) : Nat × Nat × Nat :=
  (b1 >>> 2, b0 &&& 7, b0 >>> 6)

/-- Embeds Python's `int.to_bytes(v, len, 'big')`; faithful whenever
`v < 256 ^ len` (Python raises `OverflowError` otherwise, and the driver
only encodes in-range values). -/
def toBytesBE : Nat → Nat → List Nat
  | 0, _ => []
  | n + 1, v => toBytesBE n (v / 256) ++ [v % 256]

/-- One bus transaction of `_wcd(c, d)`: command bytes then data payload. -/
structure Tx where
  cmd : List Nat
  data : List Nat
  deriving DecidableEq, Repr

/-- The constant CASET payload `int.to_bytes((3 << 16) + 160, 4, 'big')`
from `show`. -/
def casetData : List Nat := toBytesBE 4 ((3 <<< 16) + 160)

/-- The RASET payload `int.to_bytes(((row + 2) << 16) + row + 3, 4, 'big')`
from `show`. -/
def rasetData (row : Nat) : List Nat := toBytesBE 4 (((row + 2) <<< 16) + row + 3)

/-- The three `_wcd` transactions one iteration of the `show` loop issues for
the scanline starting at buffer offset `start`, addressed to panel row
`row` (pre-offset). -/
def rowTxs (wd : Nat) (buf : List Nat) (start row : Nat) : List Tx :=
  [⟨[0x2a], casetData⟩, ⟨[0x2b], rasetData row⟩, ⟨[0x2c], lcopy (buf.drop start) wd⟩]

/-- The `while row >= 0` loop of `show`, with the remaining iteration count
`row + 1` as the recursion measure: entered with `start = 0` and count
`ht`, each iteration handles row `count - 1`, advances `start` by `wd` and
decrements the count. -/
def showAux (wd : Nat) (buf : List Nat) : Nat → Nat → List Tx
  | _, 0 => []
  | start, row + 1 => rowTxs wd buf start row ++ showAux wd buf (start + wd) row

/-- Embeds `ST7735R.show`: the sequence of `_wcd` transactions issued for a
device of height `ht`, width `wd` and pixel buffer `buf`. -/
def showTxs (ht wd : Nat) (buf : List Nat) : List Tx := showAux wd buf 0 ht

/-- A pin-level event: `dc v` / `cs v` / `rst v` set the data-command,
chip-select and reset lines to level `v`; `wr bs` writes bytes `bs` on the
SPI bus. -/
inductive Ev where
  | dc (v : Nat)
  | cs (v : Nat)
  | rst (v : Nat)
  | wr (bs : List Nat)
  deriving DecidableEq, Repr

/-- Event trace of `_wcmd(buf)`: `dc(0); cs(0); spi.write(buf); cs(1)`. -/
def wcmdE (buf : List Nat) : List Ev :=
  [.dc 0, .cs 0, .wr buf, .cs 1]

/-- Event trace of `_wcd(c, d)`: command framing then data framing, with
chip-select deasserted in between. -/
def wcdE (c d : List Nat) : List Ev :=
  [.dc 0, .cs 0, .wr c, .cs 1, .dc 1, .cs 0, .wr d, .cs 1]

/-- Event trace of `_hwreset` (the `sleep_ms` calls produce no pin or bus
events). -/
def hwresetE : List Ev := [.dc 0, .rst 1, .rst 0, .rst 1]

/-- Event trace of `_init`: hardware reset followed by the fixed register
configuration sequence (SWRESET, SLPOUT, FRMCTRL1-3, INVCTR, PWCTR1-5,
VMCTR1, INVOFF, MADCTL, COLMOD, gamma tables, NORON, DISPON). -/
def initE : List Ev :=
  hwresetE ++ wcmdE [0x01] ++ wcmdE [0x11] ++
  wcdE [0xb1] [0x01, 0x2C, 0x2D] ++ wcdE [0xb2] [0x01, 0x2C, 0x2D] ++
  wcdE [0xb3] [0x01, 0x2C, 0x2D, 0x01, 0x2C, 0x2D] ++ wcdE [0xb4] [0x07] ++
  wcdE [0xc0] [0xa2, 0x02, 0x84] ++ wcdE [0xc1] [0xc5] ++
  wcdE [0xc2] [0x0a, 0x00] ++ wcdE [0xc3] [0x8a, 0x2a] ++
  wcdE [0xc4] [0x8a, 0xee] ++ wcdE [0xc5] [0x0e] ++ wcmdE [0x20] ++
  wcdE [0x36] [0xe0] ++ wcdE [0x3a] [0x05] ++
  wcdE [0xe0] [0x02, 0x1c, 0x07, 0x12, 0x37, 0x32, 0x29, 0x2d,
               0x29, 0x25, 0x2B, 0x39, 0x00, 0x01, 0x03, 0x10] ++
  wcdE [0xe1] [0x03, 0x1d, 0x07, 0x06, 0x2E, 0x2C, 0x29, 0x2D,
               0x2E, 0x2E, 0x37, 0x3F, 0x00, 0x00, 0x02, 0x10] ++
  wcmdE [0x13] ++ wcmdE [0x29]

/-- The pin-level events of one `_wcd` transaction. -/
def txEvents (t : Tx) : List Ev := wcdE t.cmd t.data

/-- The full pin-level event trace of `ST7735R.show`. -/
def showEvents (ht wd : Nat) (buf : List Nat) : List Ev :=
  (showTxs ht wd buf).flatMap txEvents

/-- Chip-select framing scanner.  `level` is the current chip-select level
(1 = deasserted, the constructor's initial pin value), `wrote` records
whether a bus write has happened since chip-select was last deasserted.
A write is legal only while chip-select is asserted and no other write has
occurred within the same assertion window. -/
def csFramed : (level : Nat) → (wrote : Bool) → List Ev → Bool
  | _, _, [] => true
  | _, wrote, .cs v :: rest => csFramed v (if v = 1 then false else wrote) rest
  | level, wrote, .wr _ :: rest =>
      if level = 0 && !wrote then csFramed level true rest else false
  | level, wrote, .dc _ :: rest => csFramed level wrote rest
  | level, wrote, .rst _ :: rest => csFramed level wrote rest

/-- Runs an event trace over a transport whose `k`-th bus write (0-based,
counting only `wr` events) raises.  Pin events always succeed; the failing
write is attempted and then the exception propagates, so execution stops
there.  Returns the events attempted and whether the failure was hit. -/
def execW : (k : Nat) → List Ev → List Ev × Bool
  | _, [] => ([], false)
  | 0, .wr b :: _ => ([.wr b], true)
  | k + 1, .wr b :: rest =>
      let r := execW k rest
      (.wr b :: r.1, r.2)
  | k, e :: rest =>
      let r := execW k rest
      (e :: r.1, r.2)

/-- The mutable state of an `ST7735R` object that `show` touches: the
dimensions, the pixel buffer and the line buffer. -/
structure Device where
  height : Nat
  width : Nat
  buffer : List Nat
  linebuf : List Nat
  deriving DecidableEq, Repr

/-- One iteration's effect on the line buffer: `_lcopy(lb, buf[start:], wd)`
overwrites the first `2 * wd` bytes of the line buffer and leaves any rest
untouched. -/
def lineWrite (d : Device) (start : Nat) : List Nat :=
  lcopy (d.buffer.drop start) d.width ++ d.linebuf.drop (2 * d.width)

/-- The `show` loop as a state transformer: threads the device record
through each iteration (only `linebuf` is ever written) and records the
issued transactions. -/
def showDevAux : (start : Nat) → (count : Nat) → Device → Device × List Tx
  | _, 0, d => (d, [])
  | start, row + 1, d =>
      let lb := lineWrite d start
      let d' := { d with linebuf := lb }
      let r := showDevAux (start + d.width) row d'
      (r.1, [⟨[0x2a], casetData⟩, ⟨[0x2b], rasetData row⟩, ⟨[0x2c], lb⟩] ++ r.2)

/-- Embeds `ST7735R.show` as a state transformer on the device record. -/
def showDev (d : Device) : Device × List Tx :=
  showDevAux 0 d.height d

/-- Observer: transaction `t` is a command `b` (its command bytes are the
single byte `b`). -/
def cmdIs (b : Nat) (t : Tx) : Bool := t.cmd == [b]

/-- Observer: event `e` is a bus write of the single command byte `b`. -/
def evIs (b : Nat) : Ev → Bool
  | .wr bs => bs == [b]
  | _ => false

/-- Number of bus writes of the single byte `b` in a trace (for the ST7735R
command bytes 0x2a/0x2b/0x2c this counts the issued commands, since no data
payload is a single byte). -/
def wrCount (b : Nat) (l : List Ev) : Nat := (l.filter (evIs b)).length

/-- The `i`-th RAMWR (write-memory) payload of a refresh, in transmission
order. -/
def ramwrPayload (ht wd : Nat) (buf : List Nat) (i : Nat) : List Nat :=
  (((showTxs ht wd buf).filter (cmdIs 0x2c)).map Tx.data).getD i []

/-- Pixel `j` of a wire-format payload, decoded back through the inverse
wire mapping. -/
def decodedPixel (p : List Nat) (j : Nat) : Nat × Nat × Nat :=
  wireDecode (p.getD (2 * j) 0) (p.getD (2 * j + 1) 0)

/-- Indexing into a `flatMap` over `List.range` whose blocks all have
length 2: the block for `i` supplies positions `2 i` and `2 i + 1`. -/
theorem flatMapPair_get {α : Type} :
    ∀ (n : Nat) (f : Nat → List α), (∀ x, (f x).length = 2) → ∀ i, i < n →
      ((List.range n).flatMap f)[2 * i]? = (f i)[0]? ∧
      ((List.range n).flatMap f)[2 * i + 1]? = (f i)[1]? := by
  intro n
  induction n with
  | zero => intro f hf i hi; exact absurd hi (Nat.not_lt_zero i)
  | succ m ih =>
    intro f hf i hi
    have hsplit : (List.range (m + 1)).flatMap f
        = f 0 ++ (List.range m).flatMap (fun x => f (x + 1)) := by
      rw [List.range_succ_eq_map, List.flatMap_cons, List.flatMap_map]
    have h0 : (f 0).length = 2 := hf 0
    cases i with
    | zero =>
      rw [hsplit]
      constructor
      · rw [List.getElem?_append]
        simp [h0]
      · rw [List.getElem?_append]
        simp [h0]
    | succ j =>
      have hj : j < m := by omega
      have ih' := ih (fun x => f (x + 1)) (fun x => hf (x + 1)) j hj
      rw [hsplit]
      have hge : (f 0).length ≤ 2 * (j + 1) := by omega
      have hge' : (f 0).length ≤ 2 * (j + 1) + 1 := by omega
      have e1 : 2 * (j + 1) - (f 0).length = 2 * j := by omega
      have e2 : 2 * (j + 1) + 1 - (f 0).length = 2 * j + 1 := by omega
      constructor
      · rw [List.getElem?_append_right hge, e1]
        exact ih'.1
      · rw [List.getElem?_append_right hge', e2]
        exact ih'.2

example : lcopy [0xe0, 0] 2 = [0, 0x1c, 0, 0] := by decide

example : rgb 255 0 0 = 0xe0 := by decide

example : casetData = [0, 3, 0, 160] := by decide

example : showTxs 2 2 [0xe0, 0, 0, 0] =
    [⟨[0x2a], [0, 3, 0, 160]⟩, ⟨[0x2b], [0, 3, 0, 4]⟩, ⟨[0x2c], [0, 0x1c, 0, 0]⟩,
     ⟨[0x2a], [0, 3, 0, 160]⟩, ⟨[0x2b], [0, 2, 0, 3]⟩, ⟨[0x2c], [0, 0, 0, 0]⟩] := by
  decide

/-- C1: the 16-bit codec emits, for the source byte `c` at pixel `i` of a
scanline of `n` pixels, exactly the byte `((c & 3) << 6) | ((c & 0x1c) >> 2)`
at destination index `2 i` and the byte `(c & 0xe0) >> 3` at destination
index `2 i + 1`. -/
theorem c1_codec_bytes (src : List Nat) (n i : Nat) (hi : i < n) :
    (lcopy src n)[2 * i]? =
      some ((((src.getD i 0) &&& 3) <<< 6) ||| (((src.getD i 0) &&& 0x1c) >>> 2)) ∧
    (lcopy src n)[2 * i + 1]? = some (((src.getD i 0) &&& 0xe0) >>> 3) := by
  have h := flatMapPair_get n
    (fun x =>
      let c := src.getD x 0
      [((c &&& 3) <<< 6) ||| ((c &&& 0x1c) >>> 2), (c &&& 0xe0) >>> 3])
    (fun x => rfl) i hi
  exact h

/-- Witness for C1 at the concrete scanline `[0xb7]` (pixel 0 of 1). -/
theorem c1_codec_bytes_witness :
    (lcopy [0xb7] 1)[0]? = some 0xc5 ∧ (lcopy [0xb7] 1)[1]? = some 0x14 := by
  have h := c1_codec_bytes [0xb7] 1 0 (by decide)
  exact ⟨h.1.trans (by decide), h.2.trans (by decide)⟩

/-- C2: for every 8-bit packed color, the two wire bytes `lcopy` emits are a
lossless encoding of the red/green/blue sub-fields — `wireDecode` recovers
`c >> 5` (red), `(c >> 2) & 7` (green) and `c & 3` (blue) exactly — and
every wire bit outside the sub-fields (bits 5..3 of the first byte, bits
7..5 and 1..0 of the second) is zero. -/
theorem c2_codec_lossless (c : Nat) (hc : c < 256) :
    wireDecode ((lcopy [c] 1).getD 0 0) ((lcopy [c] 1).getD 1 0)
      = (c >>> 5, (c >>> 2) &&& 7, c &&& 3) ∧
    ((lcopy [c] 1).getD 0 0) &&& 0x38 = 0 ∧
    ((lcopy [c] 1).getD 1 0) &&& 0xe3 = 0 := by
  revert c
  decide

/-- Witness for C2 at the concrete color `0x94` (red 100, green 101, blue 00). -/
theorem c2_codec_lossless_witness :
    wireDecode ((lcopy [0x94] 1).getD 0 0) ((lcopy [0x94] 1).getD 1 0) = (4, 5, 0) ∧
    ((lcopy [0x94] 1).getD 0 0) &&& 0x38 = 0 ∧
    ((lcopy [0x94] 1).getD 1 0) &&& 0xe3 = 0 := by
  have h := c2_codec_lossless 0x94 (by decide)
  exact ⟨h.1.trans (by decide), h.2⟩

/-- When the low summand fits in 16 bits, bitwise-or with a 16-bit-shifted
value coincides with addition (the form `show` computes the RASET word in). -/
theorem lor_shift16 (a b : Nat) (hb : b < 2 ^ 16) :
    (a <<< 16) ||| b = (a <<< 16) + b := by
  have h1 : a <<< 16 = 2 ^ 16 * a := by
    rw [Nat.shiftLeft_eq, Nat.mul_comm]
  apply Nat.eq_of_testBit_eq
  intro j
  rw [Nat.testBit_lor, h1, Nat.testBit_mul_pow_two_add a hb j]
  rcases Nat.lt_or_ge j 16 with hj | hj
  · have hsh : Nat.testBit (2 ^ 16 * a) j = false := by
      rw [Nat.testBit_mul_pow_two]
      simp [Nat.not_le.mpr hj]
    rw [if_pos hj, hsh, Bool.false_or]
  · have hbj : Nat.testBit b j = false :=
      Nat.testBit_lt_two_pow (lt_of_lt_of_le hb (Nat.pow_le_pow_right (by omega) hj))
    rw [if_neg (Nat.not_lt.mpr hj), hbj, Bool.or_false, Nat.testBit_mul_pow_two]
    simp [hj]

/-- Length of a `flatMap` over `List.range` whose blocks all have length 2. -/
theorem flatMapPair_length {α : Type} :
    ∀ (n : Nat) (f : Nat → List α), (∀ x, (f x).length = 2) →
      ((List.range n).flatMap f).length = 2 * n := by
  intro n
  induction n with
  | zero => intro f _; rfl
  | succ m ih =>
    intro f hf
    rw [List.range_succ_eq_map, List.flatMap_cons, List.flatMap_map,
      List.length_append, hf 0, ih (fun x => f (x + 1)) (fun x => hf (x + 1))]
    omega

/-- The length of a converted scanline is twice the pixel count. -/
theorem lcopy_length (src : List Nat) (n : Nat) : (lcopy src n).length = 2 * n := by
  unfold lcopy
  exact flatMapPair_length n _ (fun x => rfl)

/-- The RASET transactions of the `show` loop, in issue order: the `i`-th one
addresses row `n - 1 - i`. -/
theorem showAux_raset_filter (wd : Nat) (buf : List Nat) :
    ∀ (n start : Nat), (showAux wd buf start n).filter (cmdIs 0x2b)
      = (List.range n).map (fun i => ⟨[0x2b], rasetData (n - 1 - i)⟩) := by
  intro n
  induction n with
  | zero => intro start; rfl
  | succ m ih =>
    intro start
    show (rowTxs wd buf start m ++ showAux wd buf (start + wd) m).filter (cmdIs 0x2b) = _
    rw [List.filter_append, ih (start + wd)]
    rw [List.range_succ_eq_map, List.map_cons, List.map_map]
    have hhead : (rowTxs wd buf start m).filter (cmdIs 0x2b)
        = [⟨[0x2b], rasetData m⟩] := rfl
    rw [hhead]
    simp [Nat.sub_sub, Nat.add_comm]

/-- The CASET transactions of the `show` loop: one per scanline, all with
the same constant payload. -/
theorem showAux_caset_filter (wd : Nat) (buf : List Nat) :
    ∀ (n start : Nat), (showAux wd buf start n).filter (cmdIs 0x2a)
      = (List.range n).map (fun _ => ⟨[0x2a], casetData⟩) := by
  intro n
  induction n with
  | zero => intro start; rfl
  | succ m ih =>
    intro start
    show (rowTxs wd buf start m ++ showAux wd buf (start + wd) m).filter (cmdIs 0x2a) = _
    rw [List.filter_append, ih (start + wd)]
    rw [List.range_succ_eq_map, List.map_cons, List.map_map]
    rfl

/-- The RAMWR transactions of the `show` loop, in issue order: the `i`-th
one carries the converted scanline starting at source offset
`start + i * wd`. -/
theorem showAux_ramwr_filter (wd : Nat) (buf : List Nat) :
    ∀ (n start : Nat), (showAux wd buf start n).filter (cmdIs 0x2c)
      = (List.range n).map (fun i => ⟨[0x2c], lcopy (buf.drop (start + i * wd)) wd⟩) := by
  intro n
  induction n with
  | zero => intro start; rfl
  | succ m ih =>
    intro start
    show (rowTxs wd buf start m ++ showAux wd buf (start + wd) m).filter (cmdIs 0x2c) = _
    rw [List.filter_append, ih (start + wd)]
    rw [List.range_succ_eq_map, List.map_cons, List.map_map]
    have hhead : (rowTxs wd buf start m).filter (cmdIs 0x2c)
        = [⟨[0x2c], lcopy (buf.drop start) wd⟩] := rfl
    rw [hhead]
    show _ :: _ = _ :: _
    congr 1
    · have e0 : start + 0 * wd = start := by omega
      rw [e0]
    · apply List.map_congr_left
      intro i _
      have e : start + wd + i * wd = start + Nat.succ i * wd := by
        rw [Nat.succ_mul]; omega
      simp only [Function.comp]
      rw [e]

/-- C4: one refresh issues exactly `ht` RASET (0x2b) commands and exactly
`ht` RAMWR (0x2c) commands, and every RAMWR payload is exactly `2 * wd`
bytes long. -/
theorem c4_command_counts (ht wd : Nat) (buf : List Nat) :
    ((showTxs ht wd buf).filter (cmdIs 0x2b)).length = ht ∧
    ((showTxs ht wd buf).filter (cmdIs 0x2c)).length = ht ∧
    ∀ t ∈ showTxs ht wd buf, t.cmd = [0x2c] → t.data.length = 2 * wd := by
  refine ⟨?_, ?_, ?_⟩
  · rw [showTxs, showAux_raset_filter]
    simp
  · rw [showTxs, showAux_ramwr_filter]
    simp
  · intro t tm hc
    have hmem : t ∈ (showTxs ht wd buf).filter (cmdIs 0x2c) :=
      List.mem_filter.mpr ⟨tm, by simp [cmdIs, hc]⟩
    rw [showTxs, showAux_ramwr_filter] at hmem
    simp only [List.mem_map] at hmem
    obtain ⟨i, _, rfl⟩ := hmem
    simpa using lcopy_length (buf.drop (0 + i * wd)) wd

/-- Witness for C4 on a concrete 2-by-2 device: the command counts hold and
the payload-length clause applies to the concrete first RAMWR transaction. -/
theorem c4_command_counts_witness :
    ((showTxs 2 2 [0xe0, 0, 0, 0]).filter (cmdIs 0x2b)).length = 2 ∧
    (⟨[0x2c], [0, 0x1c, 0, 0]⟩ : Tx).data.length = 2 * 2 := by
  have h := c4_command_counts 2 2 [0xe0, 0, 0, 0]
  exact ⟨h.1, h.2.2 ⟨[0x2c], [0, 0x1c, 0, 0]⟩ (by decide) rfl⟩

/-- C3: during one refresh of a device with height `ht` (at least 1, and
small enough that the RASET word fits its 4 bytes), the `i`-th issued RASET
payload is the 4-byte big-endian encoding of
`((ht - 1 - i + 2) << 16) | (ht - 1 - i + 3)`: row start `(ht - 1 - i) + 2`,
row end one more, so the addressed row starts at `ht - 1` and decreases by
one per scanline down to 0. -/
theorem c3_raset_payloads (ht wd : Nat) (buf : List Nat) (i : Nat)
    (h1 : 1 ≤ ht) (h2 : ht ≤ 65533) (hi : i < ht) :
    (((showTxs ht wd buf).filter (cmdIs 0x2b)).map Tx.data)[i]?
      = some (toBytesBE 4 (((ht - 1 - i + 2) <<< 16) ||| (ht - 1 - i + 3))) := by
  rw [showTxs, showAux_raset_filter, List.map_map, List.getElem?_map,
    List.getElem?_range hi]
  have hlt : ht - 1 - i + 3 < 2 ^ 16 := by omega
  rw [lor_shift16 _ _ hlt]
  show some (rasetData (ht - 1 - i)) = _
  unfold rasetData
  rw [Nat.add_assoc]

/-- Witness for C3 on a concrete device of height 2, scanline 0: the first
RASET payload addresses rows 3..4, i.e. in-memory row 1 plus the fixed
offset 2. -/
theorem c3_raset_payloads_witness :
    (((showTxs 2 2 [0xe0, 0, 0, 0]).filter (cmdIs 0x2b)).map Tx.data)[0]?
      = some [0, 3, 0, 4] := by
  have h := c3_raset_payloads 2 2 [0xe0, 0, 0, 0] 0 (by decide) (by decide) (by decide)
  exact h.trans (by decide)

/-- C8: within a single refresh every CASET (0x2a) transaction carries the
same constant payload, the 4-byte big-endian encoding of `(3 << 16) + 160`,
independent of the scanline index and of the pixel buffer contents. -/
theorem c8_caset_constant (ht wd : Nat) (buf : List Nat) :
    ∀ t ∈ showTxs ht wd buf, t.cmd = [0x2a] → t.data = toBytesBE 4 ((3 <<< 16) + 160) := by
  intro t tm hc
  have hmem : t ∈ (showTxs ht wd buf).filter (cmdIs 0x2a) :=
    List.mem_filter.mpr ⟨tm, by simp [cmdIs, hc]⟩
  rw [showTxs, showAux_caset_filter] at hmem
  simp only [List.mem_map] at hmem
  obtain ⟨i, _, rfl⟩ := hmem
  rfl

/-- Witness for C8 at the first CASET transaction of a concrete refresh. -/
theorem c8_caset_constant_witness :
    (⟨[0x2a], casetData⟩ : Tx).data = toBytesBE 4 ((3 <<< 16) + 160) := by
  exact c8_caset_constant 2 2 [0xe0, 0, 0, 0] ⟨[0x2a], casetData⟩ (by decide) rfl

/-- A `_wcmd` block, entered with chip-select deasserted and no pending
write, ends in the same framing state. -/
theorem csFramed_wcmd (b : List Nat) (rest : List Ev) :
    csFramed 1 false (wcmdE b ++ rest) = csFramed 1 false rest := rfl

/-- A `_wcd` block, entered with chip-select deasserted and no pending
write, ends in the same framing state. -/
theorem csFramed_wcd (c d : List Nat) (rest : List Ev) :
    csFramed 1 false (wcdE c d ++ rest) = csFramed 1 false rest := rfl

/-- Framing over whole transaction lists. -/
theorem csFramed_txList : ∀ (l : List Tx), csFramed 1 false (l.flatMap txEvents) = true := by
  intro l
  induction l with
  | nil => rfl
  | cons t ts ih =>
    rw [List.flatMap_cons]
    show csFramed 1 false (wcdE t.cmd t.data ++ ts.flatMap txEvents) = true
    rw [csFramed_wcd]
    exact ih

/-- C6: over the whole pin-level trace of `initialize()` followed by a
refresh, chip-select is deasserted between every command write and the data
write that follows it and between consecutive command/data pairs: every bus
write happens with chip-select asserted, and no two bus writes share one
chip-select assertion window. -/
theorem c6_cs_framing (ht wd : Nat) (buf : List Nat) :
    csFramed 1 false (initE ++ showEvents ht wd buf) = true := by
  have hinit : ∀ rest : List Ev, csFramed 1 false (initE ++ rest) = csFramed 1 false rest := by
    intro rest
    rfl
  rw [hinit, showEvents]
  exact csFramed_txList (showTxs ht wd buf)

/-- The `show` loop never writes the pixel buffer or the dimensions: only
the line buffer component of the device state changes. -/
theorem showDevAux_state : ∀ (count start : Nat) (d : Device),
    (showDevAux start count d).1.buffer = d.buffer ∧
    (showDevAux start count d).1.width = d.width ∧
    (showDevAux start count d).1.height = d.height := by
  intro count
  induction count with
  | zero => intro start d; exact ⟨rfl, rfl, rfl⟩
  | succ m ih =>
    intro start d
    have h := ih (start + d.width) { d with linebuf := lineWrite d start }
    simpa [showDevAux] using h

/-- C9: a refresh leaves the pixel buffer bytes, the width and the height of
the device exactly as they were; the codec output goes only to the separate
line buffer. -/
theorem c9_buffer_readonly (d : Device) :
    (showDev d).1.buffer = d.buffer ∧
    (showDev d).1.width = d.width ∧
    (showDev d).1.height = d.height :=
  showDevAux_state d.height 0 d

/-- A RASET payload is 4 bytes long, so it never equals a 1-byte command. -/
theorem rasetData_beq_single (r b : Nat) : (rasetData r == [b]) = false := by
  apply beq_eq_false_iff_ne.mpr
  intro h
  have hl := congrArg List.length h
  simp [rasetData, toBytesBE] at hl

/-- A converted scanline has even length, so it never equals a 1-byte
command. -/
theorem lcopy_beq_single (s : List Nat) (w b : Nat) : (lcopy s w == [b]) = false := by
  apply beq_eq_false_iff_ne.mpr
  intro h
  have hl := congrArg List.length h
  rw [lcopy_length] at hl
  simp at hl

/-- Write counts distribute over trace concatenation. -/
theorem wrCount_append (b : Nat) (l1 l2 : List Ev) :
    wrCount b (l1 ++ l2) = wrCount b l1 + wrCount b l2 := by
  simp [wrCount, List.filter_append]

/-- C7: if the transport fails on the 18th bus write of a refresh — the
write-memory payload of the 3rd scanline — then the refresh aborts with the
failure propagating, and the attempted trace contains exactly 3 RAMWR, 3
CASET and 3 RASET command writes: nothing for scanlines 4 through `ht` is
issued. -/
theorem c7_failure_aborts (ht wd : Nat) (buf : List Nat) (h3 : 3 ≤ ht) :
    (execW 17 (showEvents ht wd buf)).2 = true ∧
    wrCount 0x2c (execW 17 (showEvents ht wd buf)).1 = 3 ∧
    wrCount 0x2a (execW 17 (showEvents ht wd buf)).1 = 3 ∧
    wrCount 0x2b (execW 17 (showEvents ht wd buf)).1 = 3 := by
  obtain ⟨m, rfl⟩ : ∃ m, ht = m + 3 := ⟨ht - 3, by omega⟩
  have key : execW 17 (showEvents (m + 3) wd buf)
      = (txEvents ⟨[0x2a], casetData⟩ ++ txEvents ⟨[0x2b], rasetData (m + 2)⟩ ++
         txEvents ⟨[0x2c], lcopy (buf.drop 0) wd⟩ ++
         txEvents ⟨[0x2a], casetData⟩ ++ txEvents ⟨[0x2b], rasetData (m + 1)⟩ ++
         txEvents ⟨[0x2c], lcopy (buf.drop (0 + wd)) wd⟩ ++
         txEvents ⟨[0x2a], casetData⟩ ++ txEvents ⟨[0x2b], rasetData m⟩ ++
         [.dc 0, .cs 0, .wr [0x2c], .cs 1, .dc 1, .cs 0,
          .wr (lcopy (buf.drop (0 + wd + wd)) wd)],
         true) := rfl
  rw [key]
  refine ⟨rfl, ?_, ?_, ?_⟩
  all_goals
    simp [wrCount_append, wrCount, txEvents, wcdE, evIs, List.filter,
      rasetData_beq_single, lcopy_beq_single, casetData, toBytesBE]

/-- Witness for C7 on a concrete 4-by-1 device. -/
theorem c7_failure_aborts_witness :
    (execW 17 (showEvents 4 1 [9, 8, 7, 6])).2 = true ∧
    wrCount 0x2c (execW 17 (showEvents 4 1 [9, 8, 7, 6])).1 = 3 ∧
    wrCount 0x2a (execW 17 (showEvents 4 1 [9, 8, 7, 6])).1 = 3 ∧
    wrCount 0x2b (execW 17 (showEvents 4 1 [9, 8, 7, 6])).1 = 3 :=
  c7_failure_aborts 4 1 [9, 8, 7, 6] (by decide)

/-- Counterexample to C5: on the 2-by-2 device whose top-left pixel is
`rgb 255 0 0` and the rest zero, the second-transmitted scanline payload is
all zero bytes — both of its decoded pixels are `(0, 0, 0)`, so no pixel of
that payload has red sub-field 111.  (The red pixel travels in the
first-transmitted scanline: the scan pointer ascends from in-memory row 0
while only the addressed panel row descends.) -/
theorem c5_second_scanline_not_red :
    ramwrPayload 2 2 [rgb 255 0 0, 0, 0, 0] 1 = [0, 0, 0, 0] ∧
    decodedPixel (ramwrPayload 2 2 [rgb 255 0 0, 0, 0, 0] 1) 0 = (0, 0, 0) ∧
    decodedPixel (ramwrPayload 2 2 [rgb 255 0 0, 0, 0, 0] 1) 1 = (0, 0, 0) := by
  decide

/-- C5 as amended: the refresh issues exactly two scanline transfers, and
the FIRST-transmitted scanline's payload decodes to the red-dominant pixel
(red sub-field 111, green and blue zero) at pixel 0. -/
theorem c5_first_scanline_red :
    ((showTxs 2 2 [rgb 255 0 0, 0, 0, 0]).filter (cmdIs 0x2c)).length = 2 ∧
    decodedPixel (ramwrPayload 2 2 [rgb 255 0 0, 0, 0, 0] 0) 0 = (7, 0, 0) := by
  decide

/-- Masking red keeps exactly the top 3 bits, left-justified. -/
theorem mask_red : ∀ r, r < 256 → r &&& 0xe0 = (r >>> 5) <<< 5 := by decide

/-- The green field of `rgb` is the top 3 bits of `g`, shifted to bits 4..2. -/
theorem mask_green : ∀ g, g < 256 → (g >>> 3) &&& 0x1c = (g >>> 5) <<< 2 := by decide

/-- Top-3-bit extractions are below 8, top-2-bit below 4. -/
theorem shift5_lt : ∀ r, r < 256 → r >>> 5 < 8 := by decide

/-- The blue field of `rgb` is below 4. -/
theorem shift6_lt : ∀ b, b < 256 → b >>> 6 < 4 := by decide

/-- The packed 3-3-2 format round-trips through the 16-bit wire codec. -/
theorem packed_decode : ∀ a, a < 8 → ∀ gg, gg < 8 → ∀ bb, bb < 4 →
    ((a <<< 5) ||| (gg <<< 2) ||| bb) < 256 ∧
    wireDecode ((lcopy [(a <<< 5) ||| (gg <<< 2) ||| bb] 1).getD 0 0)
        ((lcopy [(a <<< 5) ||| (gg <<< 2) ||| bb] 1).getD 1 0) = (a, gg, bb) := by
  decide

/-- The three sub-fields of the packed 3-3-2 format occupy disjoint bits. -/
theorem packed_disjoint : ∀ a, a < 8 → ∀ gg, gg < 8 → ∀ bb, bb < 4 →
    (a <<< 5) &&& (gg <<< 2) = 0 ∧ (a <<< 5) &&& bb = 0 ∧ (gg <<< 2) &&& bb = 0 := by
  decide

/-- C10: the color encoder and the 16-bit wire codec compose losslessly at
the packed precision: `rgb r g b` is an 8-bit value built from three
disjoint sub-fields, and decoding the wire bytes the codec emits for it
recovers exactly the top 3 bits of `r`, the top 3 bits of `g` and the top
2 bits of `b`. -/
theorem c10_encode_convert_compose (r g b : Nat)
    (hr : r < 256) (hg : g < 256) (hb : b < 256) :
    rgb r g b < 256 ∧
    ((r &&& 0xe0) &&& ((g >>> 3) &&& 0x1c) = 0 ∧
     (r &&& 0xe0) &&& (b >>> 6) = 0 ∧
     ((g >>> 3) &&& 0x1c) &&& (b >>> 6) = 0) ∧
    wireDecode ((lcopy [rgb r g b] 1).getD 0 0) ((lcopy [rgb r g b] 1).getD 1 0)
      = (r >>> 5, g >>> 5, b >>> 6) := by
  have h := packed_decode (r >>> 5) (shift5_lt r hr) (g >>> 5) (shift5_lt g hg)
    (b >>> 6) (shift6_lt b hb)
  have hd := packed_disjoint (r >>> 5) (shift5_lt r hr) (g >>> 5) (shift5_lt g hg)
    (b >>> 6) (shift6_lt b hb)
  simp only [rgb, mask_red r hr, mask_green g hg]
  exact ⟨h.1, hd, h.2⟩

/-- Witness for C10 at the concrete color (255, 0, 0). -/
theorem c10_encode_convert_compose_witness :
    rgb 255 0 0 < 256 ∧
    ((255 &&& 0xe0) &&& ((0 >>> 3) &&& 0x1c) = 0 ∧
     (255 &&& 0xe0) &&& (0 >>> 6) = 0 ∧
     ((0 >>> 3) &&& 0x1c) &&& (0 >>> 6) = 0) ∧
    wireDecode ((lcopy [rgb 255 0 0] 1).getD 0 0) ((lcopy [rgb 255 0 0] 1).getD 1 0)
      = (7, 0, 0) :=
  c10_encode_convert_compose 255 0 0 (by decide) (by decide) (by decide)
